import Mathlib

/-!
# Verification of the WarRoom transport-planning core

A shallow embedding of the bin-packing and driver-assignment core of
`pages/20_📅_Planning.py`, together with proofs of the specified
properties.

* Quantities and the truck capacity are modelled as `Int` (the Python
  values are numbers; the spec restricts to integers).
* Python's `set` of stops is modelled as a duplicate-free `List String`
  maintained in insertion order (`addStop` inserts only when absent);
  `len(stops)` is the list length.
* Python's stable `list.sort(key=..., reverse=True)` is modelled by the
  stable descending insertion sort `sortQtyDesc`.
* The `while qty_left >= max_cap` loop is modelled with an explicit fuel
  argument (`fillFullAux`): for a positive capacity, fuel `q.toNat`
  suffices, and the loop is only ever entered with a positive capacity
  (the Python loop does not terminate for `max_cap <= 0`).
* Python's `str.strip()` / `str.lower()` / `str.upper()` are modelled by
  `pyStrip` / `pyLower` / `pyUpper` (ASCII-faithful).
-/

/-- One normalized demand row handed to the planner: the `Destination`,
`Total_Items` and `Group` fields used by `optimize_transport`. -/
structure DemandRow where
  destination : String
  quantity : Int
  group : String
deriving DecidableEq, Repr

/-- One entry of the packing list `dest_groups` built inside
`optimize_transport`. -/
structure DemandItem where
  dest : String
  qty : Int
  group : String
deriving DecidableEq, Repr

/-- One entry of a truck's `load` list. -/
structure LoadEntry where
  dest : String
  qty : Int
  group : String
deriving DecidableEq, Repr

/-- A truck produced by the planner: `stops` (a set, kept as a
duplicate-free list in insertion order), `items`, `load`, `multi_drop`. -/
structure Truck where
  stops : List String
  items : Int
  load : List LoadEntry
  multi_drop : Bool
deriving DecidableEq, Repr

/-- Python `str.strip()`: drop whitespace from both ends. -/
def pyStrip (s : String) : String :=
  String.mk (((s.data.dropWhile Char.isWhitespace).reverse.dropWhile Char.isWhitespace).reverse)

/-- Python `str.lower()` (ASCII range, which covers every sentinel). -/
def pyLower (s : String) : String := String.mk (s.data.map Char.toLower)

/-- Python `str.upper()` (ASCII range). -/
def pyUpper (s : String) : String := String.mk (s.data.map Char.toUpper)

/-- Destination cleanup at the top of the `optimize_transport` row loop:
`d = str(row["Destination"]).strip()`, then
`if d.lower() in ["nan", "", "none", "nat", "#n/a"]: d = "Other"`. -/
def normalizeDest (s : String) : String :=
  let d := pyStrip s
  if ["nan", "", "none", "nat", "#n/a"].contains (pyLower d) then "Other" else d

/-- The `dest_groups` list of `optimize_transport`: one item per row with
`qty > 0`, destination normalized, group label carried along. -/
def destGroupsOf (rows : List DemandRow) : List DemandItem :=
  (rows.filter fun r => decide (0 < r.quantity)).map fun r =>
    { dest := normalizeDest r.destination, qty := r.quantity, group := r.group }

/-- Insert an item into a list already sorted by descending `qty`,
after every element with `qty` at least as large (stable). -/
def insertQtyDesc (a : DemandItem) : List DemandItem → List DemandItem
  | [] => [a]
  | b :: bs => if b.qty ≤ a.qty then a :: b :: bs else b :: insertQtyDesc a bs

/-- `dest_groups.sort(key=lambda x: x["qty"], reverse=True)`: a stable
sort by descending quantity. -/
def sortQtyDesc : List DemandItem → List DemandItem
  | [] => []
  | a :: xs => insertQtyDesc a (sortQtyDesc xs)

/-- The single-destination truck literal appearing (twice) in
`optimize_transport`: one stop, one load entry, `multi_drop = False`. -/
def mkTruck (d : String) (q : Int) (g : String) : Truck :=
  { stops := [d], items := q, load := [{ dest := d, qty := q, group := g }],
    multi_drop := false }

/-- The `while qty_left >= max_cap` loop body, with explicit fuel: each
iteration emits a full truck of `cap` units and decrements the quantity.
Returns the emitted trucks and the final remainder. -/
def fillFullAux (d g : String) (cap : Int) : Nat → Int → List Truck × Int
  | 0, q => ([], q)
  | fuel + 1, q =>
    if 0 < cap ∧ cap ≤ q then
      let res := fillFullAux d g cap fuel (q - cap)
      (mkTruck d cap g :: res.1, res.2)
    else ([], q)

/-- The full-truck loop of `optimize_transport` for one item; fuel
`q.toNat` is enough for any positive capacity. -/
def fillFull (d g : String) (cap q : Int) : List Truck × Int :=
  fillFullAux d g cap q.toNat q

/-- `truck["stops"].add(d)` on the insertion-ordered set model. -/
def addStop (stops : List String) (d : String) : List String :=
  if stops.contains d then stops else stops ++ [d]

/-- The in-place truck update of the remainder placement: add the stop,
add `q` to `items`, append the load entry, recompute `multi_drop` from
the stops. -/
def addToTruck (t : Truck) (d : String) (q : Int) (g : String) : Truck :=
  let newStops := addStop t.stops d
  { stops := newStops, items := t.items + q,
    load := t.load ++ [{ dest := d, qty := q, group := g }],
    multi_drop := decide (1 < newStops.length) }

/-- The first-fit scan `for truck in trucks: if max_cap - truck["items"]
>= qty_left: ...` — update the first truck with enough free space, or
report `none` when no truck fits. -/
def tryPlace (cap : Int) (d : String) (q : Int) (g : String) : List Truck → Option (List Truck)
  | [] => none
  | t :: ts =>
    if q ≤ cap - t.items then some (addToTruck t d q g :: ts)
    else (tryPlace cap d q g ts).map (t :: ·)

/-- The body of `for item in dest_groups:` — emit full trucks, then place
the remainder first-fit or open a new truck for it. -/
def packItem (cap : Int) (trucks : List Truck) (item : DemandItem) : List Truck :=
  let fr := fillFull item.dest item.group cap item.qty
  let trucks2 := trucks ++ fr.1
  if 0 < fr.2 then
    match tryPlace cap item.dest fr.2 item.group trucks2 with
    | some ts => ts
    | none => trucks2 ++ [mkTruck item.dest fr.2 item.group]
  else trucks2

/-- `optimize_transport(flight_data, max_cap)`: build the packing list,
sort it by descending quantity, and pack the items in order. -/
def optimize_transport (rows : List DemandRow) (maxCap : Int) : List Truck :=
  (sortQtyDesc (destGroupsOf rows)).foldl (packItem maxCap) []

/-- Total of `items` over a truck list. -/
def sumItems (ts : List Truck) : Int := (ts.map Truck.items).sum

/-- One record of the driver roster (`fetch_drivers` output): license
plate, driver name, phone, and the upper-cased `Station` key. -/
structure DriverRec where
  plate : String
  driverName : String
  phone : String
  station : String
deriving DecidableEq, Repr

/-- `drivers_by_station[s]`: the roster drivers whose station is `s`, in
roster order (the dict is built by appending while scanning the
roster; a key is present exactly when this list is nonempty). -/
def drivers_by_station (roster : List DriverRec) (s : String) : List DriverRec :=
  roster.filter fun d => d.station == s

/-- `pool_any = drivers_by_station.get("ANY", [])`. -/
def pool_any (roster : List DriverRec) : List DriverRec :=
  drivers_by_station roster ("ANY")

/-- Python `pat in hay` substring test on character lists. -/
def hasSubList (pat : List Char) : List Char → Bool
  | [] => pat.isEmpty
  | c :: t => pat.isPrefixOf (c :: t) || hasSubList pat t

/-- Python `pat in hay` substring test on strings. -/
def strContainsSub (hay pat : String) : Bool := hasSubList pat.data hay.data

/-- Station-key resolution for one flight group:
`origin_raw = str(...).strip().upper()`, map `"BKK" in origin_raw` /
`"DMK" in origin_raw` to the canonical keys with fallback `"ANY"`, then
let an exact roster-station match override. -/
def resolveStationKey (roster : List DriverRec) (originVal : String) : String :=
  let originRaw := pyUpper (pyStrip originVal)
  let base :=
    if strContainsSub originRaw ("BKK") then ("BKK")
    else if strContainsSub originRaw ("DMK") then ("DMK")
    else ("ANY")
  if (drivers_by_station roster originRaw).isEmpty then base else originRaw

/-- The driver-assignment loop over the trucks of the whole planning run
(one resolved origin value per truck, in global emission order), with
the per-station cursors `station_indices` and the fallback cursor
`idx_any` threaded through: branch 1 serves a nonempty station pool
round-robin from its own cursor; branch 2 serves the `"ANY"` pool from
`idx_any`; otherwise no driver is assigned. -/
def assignGo (roster : List DriverRec) (cursors : String → Nat) (idxAny : Nat) :
    List String → List (Option DriverRec)
  | [] => []
  | o :: os =>
    match drivers_by_station roster (resolveStationKey roster o) with
    | p :: ps =>
        some ((p :: ps).get
            ⟨cursors (resolveStationKey roster o) % (p :: ps).length,
              Nat.mod_lt _ (Nat.succ_pos _)⟩) ::
          assignGo roster
            (fun s => if s == resolveStationKey roster o then cursors s + 1 else cursors s)
            idxAny os
    | [] =>
      match pool_any roster with
      | q :: qs =>
          some ((q :: qs).get ⟨idxAny % (q :: qs).length, Nat.mod_lt _ (Nat.succ_pos _)⟩) ::
            assignGo roster cursors (idxAny + 1) os
      | [] => none :: assignGo roster cursors idxAny os

/-- Driver assignment for a whole planning run: all cursors start at 0
and persist across the whole truck sequence. -/
def assignDrivers (roster : List DriverRec) (origins : List String) : List (Option DriverRec) :=
  assignGo roster (fun _ => 0) 0 origins

/-- The sidebar layout mode. -/
inductive LayoutMode where
  | detailed
  | simpleList
deriving DecidableEq, Repr

/-- The sidebar origin mode. -/
inductive OriginMode where
  | fixValue
  | fromColumn
deriving DecidableEq, Repr

/-- The column-index configuration of the planning page sidebar. -/
structure PlanningConfig where
  layout : LayoutMode
  originMode : OriginMode
  destColIdx : Nat
  cCountry : Nat
  cDate : Nat
  cFlight : Nat
  cTime : Nat
  cHotel : Nat
  cQty : Nat
  cOrigin : Nat
deriving DecidableEq, Repr

/-- `req_indices = [1, 2, 3, 4, 9, 11, 12, 13, 14, dest_col_idx]` of the
detailed layout branch. -/
def reqIndices (cfg : PlanningConfig) : List Nat :=
  [1, 2, 3, 4, 9, 11, 12, 13, 14, cfg.destColIdx]

/-- `target_cols` of the simple-list branch: the six data columns plus,
when the origin is column-derived, the origin column. -/
def targetCols (cfg : PlanningConfig) : List Nat :=
  [cfg.cCountry, cfg.cDate, cfg.cFlight, cfg.cTime, cfg.cHotel, cfg.cQty] ++
    (if cfg.originMode = OriginMode.fromColumn then [cfg.cOrigin] else [])

/-- The up-front bounds validation of each layout branch:
`if max(indices) >= len(df.columns): st.error(...); st.stop()`. -/
def checkConfig (cfg : PlanningConfig) (ncols : Nat) : Except String Unit :=
  match cfg.layout with
  | LayoutMode.detailed =>
    if ncols ≤ (reqIndices cfg).foldl Nat.max 0 then
      Except.error ("Column Index out of bounds")
    else Except.ok ()
  | LayoutMode.simpleList =>
    if ncols ≤ (targetCols cfg).foldl Nat.max 0 then
      Except.error ("Column Index exceeds file width")
    else Except.ok ()

/-- Origin resolution of the detailed branch: a fixed value, or the
origin column when it is in bounds, and the literal `"Unknown"` when the
configured origin column is out of bounds (no error is raised). -/
def detailedOrigin (cfg : PlanningConfig) (ncols : Nat) (colVal fixedVal : String) : String :=
  match cfg.originMode with
  | OriginMode.fixValue => fixedVal
  | OriginMode.fromColumn => if cfg.cOrigin < ncols then colVal else ("Unknown")

/-- The planning request pipeline as seen from the error-precedence
claim: the configuration bounds check runs first, and only on success is
the packing algorithm reached. -/
def runPlanning (cfg : PlanningConfig) (ncols : Nat) (demand : List DemandRow) (cap : Int) :
    Except String (List Truck) :=
  match checkConfig cfg ncols with
  | Except.error e => Except.error e
  | Except.ok _ => Except.ok (optimize_transport demand cap)

/-- The combined well-formedness invariant of a produced truck. -/
def TruckWF (cap : Int) (t : Truck) : Prop :=
  (0 < t.items ∧ t.items ≤ cap) ∧
  t.items = (t.load.map LoadEntry.qty).sum ∧
  t.stops.Nodup ∧
  t.multi_drop = decide (1 < t.stops.length)

theorem insertQtyDesc_perm (a : DemandItem) (l : List DemandItem) :
    List.Perm (insertQtyDesc a l) (a :: l) := by
  induction l with
  | nil => simp [insertQtyDesc]
  | cons b bs ih =>
    simp only [insertQtyDesc]
    split
    · exact List.Perm.refl _
    · exact (ih.cons b).trans (List.Perm.swap a b bs)

theorem sortQtyDesc_perm (l : List DemandItem) : List.Perm (sortQtyDesc l) l := by
  induction l with
  | nil => simp [sortQtyDesc]
  | cons a xs ih => exact (insertQtyDesc_perm a (sortQtyDesc xs)).trans (ih.cons a)

theorem fillFullAux_mem (d g : String) (cap : Int) :
    ∀ (fuel : Nat) (q : Int) (t : Truck),
      t ∈ (fillFullAux d g cap fuel q).1 → t = mkTruck d cap g := by
  intro fuel
  induction fuel with
  | zero => intro q t ht; simp [fillFullAux] at ht
  | succ n ih =>
    intro q t ht
    simp only [fillFullAux] at ht
    split at ht
    · rcases List.mem_cons.mp ht with h | h
      · exact h
      · exact ih _ t h
    · simp at ht

theorem fillFullAux_sum (d g : String) (cap : Int) :
    ∀ (fuel : Nat) (q : Int),
      sumItems (fillFullAux d g cap fuel q).1 + (fillFullAux d g cap fuel q).2 = q := by
  intro fuel
  induction fuel with
  | zero => intro q; simp [fillFullAux, sumItems]
  | succ n ih =>
    intro q
    simp only [fillFullAux]
    split
    · have := ih (q - cap)
      simp only [sumItems, List.map_cons, List.sum_cons, mkTruck] at this ⊢
      omega
    · simp [sumItems]

theorem fillFullAux_nonneg (d g : String) (cap : Int) :
    ∀ (fuel : Nat) (q : Int), 0 ≤ q → 0 ≤ (fillFullAux d g cap fuel q).2 := by
  intro fuel
  induction fuel with
  | zero => intro q hq; simpa [fillFullAux] using hq
  | succ n ih =>
    intro q hq
    simp only [fillFullAux]
    split
    · next h => exact ih (q - cap) (by omega)
    · simpa using hq

theorem fillFullAux_lt (d g : String) (cap : Int) (hcap : 0 < cap) :
    ∀ (fuel : Nat) (q : Int), q.toNat ≤ fuel → (fillFullAux d g cap fuel q).2 < cap := by
  intro fuel
  induction fuel with
  | zero => intro q hq; simp only [fillFullAux]; omega
  | succ n ih =>
    intro q hq
    simp only [fillFullAux]
    split
    · next h => exact ih (q - cap) (by omega)
    · next h => simp only; omega

theorem fillFull_mem (d g : String) (cap q : Int) (t : Truck)
    (ht : t ∈ (fillFull d g cap q).1) : t = mkTruck d cap g :=
  fillFullAux_mem d g cap q.toNat q t ht

theorem fillFull_sum (d g : String) (cap q : Int) :
    sumItems (fillFull d g cap q).1 + (fillFull d g cap q).2 = q :=
  fillFullAux_sum d g cap q.toNat q

theorem fillFull_nonneg (d g : String) (cap q : Int) (hq : 0 ≤ q) :
    0 ≤ (fillFull d g cap q).2 :=
  fillFullAux_nonneg d g cap q.toNat q hq

theorem fillFull_lt (d g : String) (cap q : Int) (hcap : 0 < cap) :
    (fillFull d g cap q).2 < cap :=
  fillFullAux_lt d g cap hcap q.toNat q le_rfl

theorem mkTruck_wf {cap q : Int} (d g : String) (h1 : 0 < q) (h2 : q ≤ cap) :
    TruckWF cap (mkTruck d q g) := by
  simp [TruckWF, mkTruck, h1, h2]

theorem addStop_nodup {l : List String} (h : l.Nodup) (d : String) : (addStop l d).Nodup := by
  simp only [addStop]
  split
  · exact h
  · next hc =>
    have hd : d ∉ l := by simpa using hc
    simp [List.nodup_append, h, hd]

theorem addToTruck_wf {cap : Int} {t : Truck} (h : TruckWF cap t) {q : Int} (hq : 0 < q)
    (hfit : q ≤ cap - t.items) (d g : String) : TruckWF cap (addToTruck t d q g) := by
  obtain ⟨⟨h1, h2⟩, hsum, hnd, _⟩ := h
  refine ⟨⟨?_, ?_⟩, ?_, addStop_nodup hnd d, rfl⟩ <;>
    simp only [addToTruck] <;> simp [hsum] <;> omega

theorem sumItems_append (a b : List Truck) : sumItems (a ++ b) = sumItems a + sumItems b := by
  simp [sumItems]

theorem tryPlace_eq_none_iff (cap : Int) (d : String) (q : Int) (g : String) :
    ∀ ts : List Truck, tryPlace cap d q g ts = none ↔ ∀ t ∈ ts, cap - t.items < q := by
  intro ts
  induction ts with
  | nil => simp [tryPlace]
  | cons t ts ih =>
    simp only [tryPlace]
    split
    · next h =>
      constructor
      · intro hc
        simp at hc
      · intro hall
        exact absurd (hall t (List.mem_cons_self t ts)) (by omega)
    · next h =>
      rw [Option.map_eq_none', ih]
      constructor
      · intro hall t' ht'
        rcases List.mem_cons.mp ht' with rfl | ht'
        · omega
        · exact hall t' ht'
      · intro hall t' ht'
        exact hall t' (List.mem_cons_of_mem _ ht')

theorem tryPlace_some_wf (cap : Int) (d : String) (q : Int) (g : String) (hq : 0 < q) :
    ∀ (ts ts2 : List Truck), (∀ t ∈ ts, TruckWF cap t) → tryPlace cap d q g ts = some ts2 →
      ∀ t ∈ ts2, TruckWF cap t := by
  intro ts
  induction ts with
  | nil => intro ts2 _ h; simp [tryPlace] at h
  | cons t ts ih =>
    intro ts2 hwf h
    simp only [tryPlace] at h
    split at h
    · next hfit =>
      injection h with h
      subst h
      intro t' ht'
      rcases List.mem_cons.mp ht' with rfl | ht'
      · exact addToTruck_wf (hwf t (List.mem_cons_self t ts)) hq hfit d g
      · exact hwf t' (List.mem_cons_of_mem _ ht')
    · next hfit =>
      rw [Option.map_eq_some'] at h
      obtain ⟨a, ha, hb⟩ := h
      subst hb
      intro t' ht'
      rcases List.mem_cons.mp ht' with rfl | ht'
      · exact hwf t' (List.mem_cons_self t' ts)
      · exact ih a (fun x hx => hwf x (List.mem_cons_of_mem _ hx)) ha t' ht'

theorem tryPlace_some_sum (cap : Int) (d : String) (q : Int) (g : String) :
    ∀ (ts ts2 : List Truck), tryPlace cap d q g ts = some ts2 →
      sumItems ts2 = sumItems ts + q := by
  intro ts
  induction ts with
  | nil => intro ts2 h; simp [tryPlace] at h
  | cons t ts ih =>
    intro ts2 h
    simp only [tryPlace] at h
    split at h
    · next hfit =>
      injection h with h
      subst h
      simp only [sumItems, List.map_cons, List.sum_cons, addToTruck]
      ring
    · next hfit =>
      rw [Option.map_eq_some'] at h
      obtain ⟨a, ha, hb⟩ := h
      subst hb
      have := ih a ha
      simp only [sumItems, List.map_cons, List.sum_cons] at this ⊢
      omega

theorem tryPlace_firstFit (cap : Int) (d : String) (q : Int) (g : String) :
    ∀ (ts ts2 : List Truck), tryPlace cap d q g ts = some ts2 →
      ∃ i, ∃ hi : i < ts.length,
        q ≤ cap - (ts.get ⟨i, hi⟩).items ∧
        (∀ j, ∀ hj : j < i, cap - (ts.get ⟨j, Nat.lt_trans hj hi⟩).items < q) ∧
        ts2 = ts.set i (addToTruck (ts.get ⟨i, hi⟩) d q g) := by
  intro ts
  induction ts with
  | nil => intro ts2 h; simp [tryPlace] at h
  | cons t ts ih =>
    intro ts2 h
    simp only [tryPlace] at h
    split at h
    · next hfit =>
      injection h with h
      subst h
      exact ⟨0, Nat.succ_pos _, hfit, fun j hj => absurd hj (Nat.not_lt_zero j), rfl⟩
    · next hfit =>
      rw [Option.map_eq_some'] at h
      obtain ⟨a, ha, hb⟩ := h
      subst hb
      obtain ⟨i, hi, hfit2, hprev, hset⟩ := ih a ha
      refine ⟨i + 1, Nat.succ_lt_succ hi, hfit2, ?_, ?_⟩
      · intro j hj
        cases j with
        | zero => simpa using (by omega : cap - t.items < q)
        | succ j' => simpa using hprev j' (by omega)
      · simpa using hset

theorem packItem_wf {cap : Int} (hcap : 0 < cap) {item : DemandItem} (hq : 0 < item.qty)
    {trucks : List Truck} (hwf : ∀ t ∈ trucks, TruckWF cap t) :
    ∀ t ∈ packItem cap trucks item, TruckWF cap t := by
  have hwf2 : ∀ t ∈ trucks ++ (fillFull item.dest item.group cap item.qty).1, TruckWF cap t := by
    intro t' ht'
    rcases List.mem_append.mp ht' with h | h
    · exact hwf t' h
    · rw [fillFull_mem _ _ _ _ t' h]
      exact mkTruck_wf _ _ hcap le_rfl
  intro t ht
  by_cases hr : 0 < (fillFull item.dest item.group cap item.qty).2
  · rcases hm : tryPlace cap item.dest (fillFull item.dest item.group cap item.qty).2 item.group
        (trucks ++ (fillFull item.dest item.group cap item.qty).1) with _ | ts2
    · simp only [packItem, if_pos hr, hm] at ht
      rcases List.mem_append.mp ht with h | h
      · exact hwf2 t h
      · rcases List.mem_singleton.mp h with rfl
        exact mkTruck_wf _ _ hr (le_of_lt (fillFull_lt _ _ _ _ hcap))
    · simp only [packItem, if_pos hr, hm] at ht
      exact tryPlace_some_wf cap item.dest _ item.group hr _ ts2 hwf2 hm t ht
  · simp only [packItem, if_neg hr] at ht
    exact hwf2 t ht

theorem packItem_sum {cap : Int} (hcap : 0 < cap) {item : DemandItem} (hq : 0 < item.qty)
    (trucks : List Truck) :
    sumItems (packItem cap trucks item) = sumItems trucks + item.qty := by
  have hsum := fillFull_sum item.dest item.group cap item.qty
  by_cases hr : 0 < (fillFull item.dest item.group cap item.qty).2
  · rcases hm : tryPlace cap item.dest (fillFull item.dest item.group cap item.qty).2 item.group
        (trucks ++ (fillFull item.dest item.group cap item.qty).1) with _ | ts2
    · simp only [packItem, if_pos hr, hm, sumItems_append]
      simp only [sumItems, List.map_cons, List.sum_cons, List.map_nil, List.sum_nil, mkTruck]
      simp only [sumItems] at hsum
      omega
    · simp only [packItem, if_pos hr, hm]
      rw [tryPlace_some_sum cap item.dest _ item.group _ ts2 hm, sumItems_append]
      omega
  · have h0 : (fillFull item.dest item.group cap item.qty).2 = 0 := by
      have := fillFull_nonneg item.dest item.group cap item.qty (le_of_lt hq)
      omega
    simp only [packItem, if_neg hr, sumItems_append]
    omega

theorem foldl_packItem_wf {cap : Int} (hcap : 0 < cap) :
    ∀ (items : List DemandItem) (trucks : List Truck),
      (∀ x ∈ items, 0 < x.qty) → (∀ t ∈ trucks, TruckWF cap t) →
      ∀ t ∈ items.foldl (packItem cap) trucks, TruckWF cap t := by
  intro items
  induction items with
  | nil => intro trucks _ hwf; simpa using hwf
  | cons x xs ih =>
    intro trucks hx hwf
    simp only [List.foldl_cons]
    exact ih _ (fun y hy => hx y (List.mem_cons_of_mem _ hy))
      (packItem_wf hcap (hx x (List.mem_cons_self x xs)) hwf)

theorem foldl_packItem_sum {cap : Int} (hcap : 0 < cap) :
    ∀ (items : List DemandItem) (trucks : List Truck), (∀ x ∈ items, 0 < x.qty) →
      sumItems (items.foldl (packItem cap) trucks) =
        sumItems trucks + (items.map DemandItem.qty).sum := by
  intro items
  induction items with
  | nil => intro trucks _; simp
  | cons x xs ih =>
    intro trucks hx
    simp only [List.foldl_cons, List.map_cons, List.sum_cons]
    rw [ih _ (fun y hy => hx y (List.mem_cons_of_mem _ hy)),
      packItem_sum hcap (hx x (List.mem_cons_self x xs))]
    ring

theorem destGroupsOf_pos (rows : List DemandRow) : ∀ x ∈ destGroupsOf rows, 0 < x.qty := by
  intro x hx
  simp only [destGroupsOf, List.mem_map, List.mem_filter, decide_eq_true_eq] at hx
  obtain ⟨r, ⟨_, hr⟩, rfl⟩ := hx
  exact hr

theorem sortedGroups_pos (rows : List DemandRow) :
    ∀ x ∈ sortQtyDesc (destGroupsOf rows), 0 < x.qty := fun x hx =>
  destGroupsOf_pos rows x ((sortQtyDesc_perm _).mem_iff.mp hx)

theorem destGroupsOf_qty_sum (rows : List DemandRow) :
    ((destGroupsOf rows).map DemandItem.qty).sum =
      ((rows.filter fun r => decide (0 < r.quantity)).map DemandRow.quantity).sum := by
  simp only [destGroupsOf, List.map_map]
  congr 1

theorem sortQtyDesc_qty_sum (l : List DemandItem) :
    ((sortQtyDesc l).map DemandItem.qty).sum = (l.map DemandItem.qty).sum :=
  ((sortQtyDesc_perm l).map DemandItem.qty).sum_eq

/-- C1: for every flight-group demand list and every positive capacity,
every truck returned by `optimize_transport` satisfies
`0 < items <= capacity`, and `items` is the sum of the quantities of the
entries in that truck's load. -/
theorem claim_C1_capacity_invariant (rows : List DemandRow) (cap : Int) (hcap : 0 < cap)
    (t : Truck) (ht : t ∈ optimize_transport rows cap) :
    (0 < t.items ∧ t.items ≤ cap) ∧ t.items = (t.load.map LoadEntry.qty).sum := by
  have h := foldl_packItem_wf hcap (sortQtyDesc (destGroupsOf rows)) []
    (sortedGroups_pos rows) (by simp) t ht
  exact ⟨h.1, h.2.1⟩

theorem claim_C1_capacity_invariant_witness :
    (0 : Int) < 30 ∧
    mkTruck ("Hotel A") 30 ("-") ∈ optimize_transport [⟨"Hotel A", 65, "-"⟩] 30 ∧
    ((0 < (mkTruck ("Hotel A") 30 ("-")).items ∧ (mkTruck ("Hotel A") 30 ("-")).items ≤ 30) ∧
      (mkTruck ("Hotel A") 30 ("-")).items =
        ((mkTruck ("Hotel A") 30 ("-")).load.map LoadEntry.qty).sum) :=
  ⟨by decide, by decide,
    claim_C1_capacity_invariant [⟨"Hotel A", 65, "-"⟩] 30 (by decide) _ (by decide)⟩

/-- C2: for every positive capacity, the sum of `items` over the trucks
of a flight group equals the sum of the quantities of the group's rows
with positive quantity, and a row with `quantity <= 0` leaves the truck
list unchanged (it never creates a truck). -/
theorem claim_C2_conservation (cap : Int) (hcap : 0 < cap) :
    (∀ rows : List DemandRow,
      sumItems (optimize_transport rows cap) =
        ((rows.filter fun r => decide (0 < r.quantity)).map DemandRow.quantity).sum) ∧
    (∀ (xs ys : List DemandRow) (r : DemandRow), r.quantity ≤ 0 →
      optimize_transport (xs ++ r :: ys) cap = optimize_transport (xs ++ ys) cap) := by
  constructor
  · intro rows
    unfold optimize_transport
    rw [foldl_packItem_sum hcap _ _ (sortedGroups_pos rows), sortQtyDesc_qty_sum,
      destGroupsOf_qty_sum]
    simp [sumItems]
  · intro xs ys r hr
    unfold optimize_transport
    suffices h : destGroupsOf (xs ++ r :: ys) = destGroupsOf (xs ++ ys) by rw [h]
    have hd : decide (0 < r.quantity) = false := by
      simp only [decide_eq_false_iff_not]
      omega
    simp [destGroupsOf, List.filter_append, List.filter_cons, hd]

theorem claim_C2_conservation_witness :
    (0 : Int) < 30 ∧
    sumItems (optimize_transport [⟨"A", 65, "-"⟩, ⟨"B", -3, "x"⟩] 30) =
      ((([⟨"A", 65, "-"⟩, ⟨"B", -3, "x"⟩] : List DemandRow).filter
          fun r => decide (0 < r.quantity)).map DemandRow.quantity).sum :=
  ⟨by decide, (claim_C2_conservation 30 (by decide)).1 _⟩

/-- C3: the full-truck step emits, for one demand item, only trucks that
carry exactly `cap` units of the single destination (one stop,
`multi_drop = false`), the emitted items plus the remainder account for
the whole quantity, the remainder is below capacity, and the 65-at-
capacity-30 scenario yields two full 30-unit single-stop trucks plus
one 5-unit truck. -/
theorem claim_C3_full_truck_step (d g : String) (cap q : Int) (hcap : 0 < cap) :
    (∀ t ∈ (fillFull d g cap q).1,
        t.items = cap ∧ t.stops = [d] ∧ t.multi_drop = false ∧
        t.load = [{ dest := d, qty := cap, group := g }]) ∧
    sumItems (fillFull d g cap q).1 + (fillFull d g cap q).2 = q ∧
    (fillFull d g cap q).2 < cap ∧
    optimize_transport [⟨"Hotel A", 65, "-"⟩] 30 =
      [mkTruck ("Hotel A") 30 ("-"), mkTruck ("Hotel A") 30 ("-"), mkTruck ("Hotel A") 5 ("-")] := by
  refine ⟨?_, fillFull_sum d g cap q, fillFull_lt d g cap q hcap, by decide⟩
  intro t ht
  rw [fillFull_mem d g cap q t ht]
  simp [mkTruck]

theorem claim_C3_full_truck_step_witness :
    (0 : Int) < 30 ∧
    sumItems (fillFull ("H") ("-") 30 65).1 + (fillFull ("H") ("-") 30 65).2 = 65 ∧
    (fillFull ("H") ("-") 30 65).2 < 30 :=
  ⟨by decide, (claim_C3_full_truck_step ("H") ("-") 30 65 (by decide)).2.1,
    (claim_C3_full_truck_step ("H") ("-") 30 65 (by decide)).2.2.1⟩

/-- C4: the remainder placement is first-fit in creation order — the
scan fails exactly when every truck lacks space (an exact fill is
accepted since the test is `space >= q`), a successful scan updates the
first truck with enough free space and no earlier one, a failed scan
makes `packItem` open a new truck holding only the remainder, and the
A=20/B=8 scenario at capacity 30 yields one truck with items 28, stops
A and B, `multi_drop = true`. -/
theorem claim_C4_first_fit (cap : Int) (d : String) (q : Int) (g : String) (ts : List Truck) :
    (tryPlace cap d q g ts = none ↔ ∀ t ∈ ts, cap - t.items < q) ∧
    (∀ ts2, tryPlace cap d q g ts = some ts2 →
      ∃ i, ∃ hi : i < ts.length,
        q ≤ cap - (ts.get ⟨i, hi⟩).items ∧
        (∀ j, ∀ hj : j < i, cap - (ts.get ⟨j, Nat.lt_trans hj hi⟩).items < q) ∧
        ts2 = ts.set i (addToTruck (ts.get ⟨i, hi⟩) d q g)) ∧
    (∀ (trucks : List Truck) (item : DemandItem),
      0 < (fillFull item.dest item.group cap item.qty).2 →
      tryPlace cap item.dest (fillFull item.dest item.group cap item.qty).2 item.group
          (trucks ++ (fillFull item.dest item.group cap item.qty).1) = none →
      packItem cap trucks item =
        trucks ++ (fillFull item.dest item.group cap item.qty).1 ++
          [mkTruck item.dest (fillFull item.dest item.group cap item.qty).2 item.group]) ∧
    optimize_transport [⟨"A", 20, "-"⟩, ⟨"B", 8, "-"⟩] 30 =
      [{ stops := ["A", "B"], items := 28,
         load := [⟨"A", 20, "-"⟩, ⟨"B", 8, "-"⟩], multi_drop := true }] := by
  refine ⟨tryPlace_eq_none_iff cap d q g ts, fun ts2 => tryPlace_firstFit cap d q g ts ts2,
    ?_, by decide⟩
  intro trucks item hr hm
  simp [packItem, if_pos hr, hm]

theorem claim_C4_first_fit_witness :
    packItem 30 [mkTruck ("A") 30 ("-")] ⟨"B", 8, "-"⟩ =
      [mkTruck ("A") 30 ("-")] ++ (fillFull ("B") ("-") 30 8).1 ++
        [mkTruck ("B") (fillFull ("B") ("-") 30 8).2 ("-")] :=
  (claim_C4_first_fit 30 ("B") 8 ("-") []).2.2.1 [mkTruck ("A") 30 ("-")] ⟨"B", 8, "-"⟩
    (by decide) (by decide)

/-- C5: every truck in the planner's output has duplicate-free stops and
`multi_drop` true exactly when it has more than one distinct stop
(`multi_drop` is recomputed from the stops on every load append). -/
theorem claim_C5_multi_drop (rows : List DemandRow) (cap : Int) (hcap : 0 < cap)
    (t : Truck) (ht : t ∈ optimize_transport rows cap) :
    t.stops.Nodup ∧ (t.multi_drop = true ↔ 1 < t.stops.length) := by
  have h := foldl_packItem_wf hcap (sortQtyDesc (destGroupsOf rows)) []
    (sortedGroups_pos rows) (by simp) t ht
  refine ⟨h.2.2.1, ?_⟩
  rw [h.2.2.2]
  simp

theorem claim_C5_multi_drop_witness :
    (0 : Int) < 30 ∧
    addToTruck (mkTruck ("A") 20 ("-")) ("B") 8 ("-") ∈
      optimize_transport [⟨"A", 20, "-"⟩, ⟨"B", 8, "-"⟩] 30 ∧
    ((addToTruck (mkTruck ("A") 20 ("-")) ("B") 8 ("-")).stops.Nodup ∧
      ((addToTruck (mkTruck ("A") 20 ("-")) ("B") 8 ("-")).multi_drop = true ↔
        1 < (addToTruck (mkTruck ("A") 20 ("-")) ("B") 8 ("-")).stops.length)) :=
  ⟨by decide, by decide,
    claim_C5_multi_drop [⟨"A", 20, "-"⟩, ⟨"B", 8, "-"⟩] 30 (by decide) _ (by decide)⟩

/-- C8: destination normalization trims surrounding whitespace and sends
exactly the lowercased sentinels `"nan"`, `""`, `"none"`, `"nat"`,
`"#n/a"` to `"Other"`, keeping any other trimmed value; this happens on
every packing-list entry before packing. -/
theorem claim_C8_sentinel (s : String) :
    (pyLower (pyStrip s) ∈ ["nan", "", "none", "nat", "#n/a"] → normalizeDest s = "Other") ∧
    (pyLower (pyStrip s) ∉ ["nan", "", "none", "nat", "#n/a"] → normalizeDest s = pyStrip s) ∧
    (∀ rows : List DemandRow,
      (destGroupsOf rows).map DemandItem.dest =
        (rows.filter fun r => decide (0 < r.quantity)).map fun r =>
          normalizeDest r.destination) ∧
    normalizeDest (" #N/A ") = "Other" ∧
    normalizeDest ("NaT") = "Other" ∧
    normalizeDest ("  Hotel B ") = "Hotel B" ∧
    normalizeDest ("none") = "Other" ∧
    normalizeDest ("") = "Other" ∧
    normalizeDest ("nan") = "Other" := by
  refine ⟨?_, ?_, ?_, by decide, by decide, by decide, by decide, by decide, by decide⟩
  · intro h
    have hc : (["nan", "", "none", "nat", "#n/a"].contains (pyLower (pyStrip s))) = true := by
      simpa using h
    show (if ["nan", "", "none", "nat", "#n/a"].contains (pyLower (pyStrip s)) = true
      then ("Other") else pyStrip s) = "Other"
    simp only [hc, if_true]
  · intro h
    have hc : (["nan", "", "none", "nat", "#n/a"].contains (pyLower (pyStrip s))) = false := by
      simpa using h
    show (if ["nan", "", "none", "nat", "#n/a"].contains (pyLower (pyStrip s)) = true
      then ("Other") else pyStrip s) = pyStrip s
    simp only [hc, Bool.false_eq_true, if_false]
  · intro rows
    simp only [destGroupsOf, List.map_map]
    rfl

theorem claim_C8_sentinel_witness :
    pyLower (pyStrip (" NaN ")) ∈ ["nan", "", "none", "nat", "#n/a"] ∧
    normalizeDest (" NaN ") = "Other" :=
  ⟨by decide, (claim_C8_sentinel (" NaN ")).1 (by decide)⟩

/-- C9: the planner never merges rows sharing a destination — the packing
list is a permutation of one item per positive-quantity row, its length
is the number of such rows, and two rows A=20, A=20 at capacity 30 pack
as two independent 20-unit trucks while a merged 40-unit row would give
a 30-unit and a 10-unit truck. -/
theorem claim_C9_no_aggregation :
    (∀ rows : List DemandRow,
      List.Perm (sortQtyDesc (destGroupsOf rows))
        ((rows.filter fun r => decide (0 < r.quantity)).map fun r =>
          ({ dest := normalizeDest r.destination, qty := r.quantity,
             group := r.group } : DemandItem))) ∧
    (∀ rows : List DemandRow,
      (destGroupsOf rows).length = (rows.filter fun r => decide (0 < r.quantity)).length) ∧
    optimize_transport [⟨"A", 20, "-"⟩, ⟨"A", 20, "-"⟩] 30 =
      [mkTruck ("A") 20 ("-"), mkTruck ("A") 20 ("-")] ∧
    optimize_transport [⟨"A", 40, "-"⟩] 30 =
      [mkTruck ("A") 30 ("-"), mkTruck ("A") 10 ("-")] := by
  refine ⟨fun rows => sortQtyDesc_perm _, fun rows => by simp [destGroupsOf], by decide, by decide⟩

theorem assignGo_spec (roster : List DriverRec) (S : String) (p : DriverRec)
    (ps : List DriverRec) (hS : drivers_by_station roster S = p :: ps) :
    ∀ (origins : List String) (cursors : String → Nat) (idxAny : Nat) (i : Nat) (o : String),
      origins[i]? = some o → resolveStationKey roster o = S →
      (assignGo roster cursors idxAny origins)[i]? =
        some ((p :: ps)[(cursors S +
          ((origins.take i).filter fun x => resolveStationKey roster x == S).length) %
            (p :: ps).length]?) := by
  intro origins
  induction origins with
  | nil => intro cursors idxAny i o ho hkey; simp at ho
  | cons o0 os ih =>
    intro cursors idxAny i o ho hkey
    cases i with
    | zero =>
      simp only [List.getElem?_cons_zero, Option.some.injEq] at ho
      subst ho
      simp only [assignGo, hkey, hS]
      simp only [List.take_zero, List.filter_nil, List.length_nil, Nat.add_zero,
        List.getElem?_cons_zero, Option.some.injEq]
      rw [List.getElem?_eq_getElem (Nat.mod_lt _ (by simp))]
      simp [List.get_eq_getElem]
    | succ j =>
      simp only [List.getElem?_cons_succ] at ho
      simp only [assignGo]
      rcases hpool : drivers_by_station roster (resolveStationKey roster o0) with _ | ⟨p0, ps0⟩
      · have hne : ¬(resolveStationKey roster o0 = S) := by
          intro he
          rw [he, hS] at hpool
          cases hpool
        have hne2 : (resolveStationKey roster o0 == S) = false := by simpa using hne
        rcases hpa : pool_any roster with _ | ⟨q0, qs0⟩
        · simp only [List.getElem?_cons_succ]
          rw [ih cursors idxAny j o ho hkey]
          simp [List.take_succ_cons, List.filter_cons, hne2]
        · simp only [List.getElem?_cons_succ]
          rw [ih cursors (idxAny + 1) j o ho hkey]
          simp [List.take_succ_cons, List.filter_cons, hne2]
      · simp only [List.getElem?_cons_succ]
        rw [ih (fun s => if s == resolveStationKey roster o0 then cursors s + 1 else cursors s)
          idxAny j o ho hkey]
        by_cases hks : resolveStationKey roster o0 = S
        · have hks2 : (S == resolveStationKey roster o0) = true := by
            simp [hks]
          have hks3 : (resolveStationKey roster o0 == S) = true := by
            simp [hks]
          congr 3
          simp only [hks2, if_true, List.take_succ_cons, List.filter_cons, hks3,
            List.length_cons]
          omega
        · have hks2 : (S == resolveStationKey roster o0) = false := by
            simp
            intro he
            exact absurd he.symm hks
          have hks3 : (resolveStationKey roster o0 == S) = false := by simpa using hks
          congr 3
          simp [hks2, List.take_succ_cons, List.filter_cons, hks3]

/-- C6: over the whole planning run, the Nth truck (from 0) whose
resolved station key is `S`, for an `S` with a nonempty pool, receives
driver `pool[N mod len(pool)]`; the per-station cursor persists across
the whole origin sequence and is never reset. -/
theorem claim_C6_round_robin (roster : List DriverRec) (origins : List String) (i : Nat)
    (o S : String) (ho : origins[i]? = some o) (hS : resolveStationKey roster o = S)
    (hpool : drivers_by_station roster S ≠ []) :
    (assignDrivers roster origins)[i]? =
      some ((drivers_by_station roster S)[
        ((origins.take i).filter fun x => resolveStationKey roster x == S).length %
          (drivers_by_station roster S).length]?) := by
  rcases hp : drivers_by_station roster S with _ | ⟨p, ps⟩
  · exact absurd hp hpool
  · have h2 := assignGo_spec roster S p ps hp origins (fun _ => 0) 0 i o ho hS
    simpa [assignDrivers] using h2

theorem claim_C6_round_robin_witness :
    (assignDrivers [⟨"b1", "n1", "t1", "BKK"⟩, ⟨"b2", "n2", "t2", "BKK"⟩]
        ["BKK", "BKK", "BKK"])[2]? =
      some ((drivers_by_station [⟨"b1", "n1", "t1", "BKK"⟩, ⟨"b2", "n2", "t2", "BKK"⟩]
          ("BKK"))[
        ((["BKK", "BKK", "BKK"].take 2).filter fun x =>
            resolveStationKey [⟨"b1", "n1", "t1", "BKK"⟩, ⟨"b2", "n2", "t2", "BKK"⟩] x ==
              "BKK").length %
          (drivers_by_station [⟨"b1", "n1", "t1", "BKK"⟩, ⟨"b2", "n2", "t2", "BKK"⟩]
            ("BKK")).length]?) :=
  claim_C6_round_robin _ _ 2 ("BKK") ("BKK") (by decide) (by decide) (by decide)

/-- C10: with a two-driver `"ANY"` roster, a truck resolving to key
`"ANY"` is served from the station cursor while a truck resolving to
`"BKK"` (no pool) is served from the independent `idx_any` cursor over
the same list, so the interleaving ANY-then-BKK assigns the same driver
twice in a row instead of rotating through the pool. -/
theorem claim_C10_any_pool_double_cursor :
    resolveStationKey [⟨"p1", "d1", "t1", "ANY"⟩, ⟨"p2", "d2", "t2", "ANY"⟩] ("ANY") = "ANY" ∧
    resolveStationKey [⟨"p1", "d1", "t1", "ANY"⟩, ⟨"p2", "d2", "t2", "ANY"⟩] ("BKK") = "BKK" ∧
    drivers_by_station [⟨"p1", "d1", "t1", "ANY"⟩, ⟨"p2", "d2", "t2", "ANY"⟩] ("BKK") = [] ∧
    pool_any [⟨"p1", "d1", "t1", "ANY"⟩, ⟨"p2", "d2", "t2", "ANY"⟩] =
      [⟨"p1", "d1", "t1", "ANY"⟩, ⟨"p2", "d2", "t2", "ANY"⟩] ∧
    assignDrivers [⟨"p1", "d1", "t1", "ANY"⟩, ⟨"p2", "d2", "t2", "ANY"⟩] ["ANY", "BKK"] =
      [some ⟨"p1", "d1", "t1", "ANY"⟩, some ⟨"p1", "d1", "t1", "ANY"⟩] ∧
    assignDrivers [⟨"p1", "d1", "t1", "ANY"⟩, ⟨"p2", "d2", "t2", "ANY"⟩] ["ANY", "BKK"] ≠
      [some ⟨"p1", "d1", "t1", "ANY"⟩, some ⟨"p2", "d2", "t2", "ANY"⟩] := by
  decide

theorem foldl_max_lt_iff :
    ∀ (l : List Nat) (a n : Nat), l.foldl Nat.max a < n ↔ a < n ∧ ∀ i ∈ l, i < n := by
  intro l
  induction l with
  | nil => intro a n; simp
  | cons b bs ih =>
    intro a n
    simp only [List.foldl_cons]
    rw [ih]
    constructor
    · rintro ⟨h1, h2⟩
      refine ⟨(Nat.max_lt.mp h1).1, ?_⟩
      intro i hi
      rcases List.mem_cons.mp hi with rfl | hi
      · exact (Nat.max_lt.mp h1).2
      · exact h2 i hi
    · rintro ⟨h1, h2⟩
      refine ⟨Nat.max_lt.mpr ⟨h1, h2 b (List.mem_cons_self b bs)⟩, ?_⟩
      intro i hi
      exact h2 i (List.mem_cons_of_mem _ hi)

/-- C7 counterexample: in Detailed layout mode with a column-derived
origin, an origin column index equal to the sheet width (out of bounds)
does not fail the request — `runPlanning` succeeds and the origin
silently becomes `"Unknown"`. -/
theorem claim_C7_counterexample :
    (⟨LayoutMode.detailed, OriginMode.fromColumn, 0, 0, 0, 0, 0, 0, 0, 15⟩ :
        PlanningConfig).originMode = OriginMode.fromColumn ∧
    15 ≤ (⟨LayoutMode.detailed, OriginMode.fromColumn, 0, 0, 0, 0, 0, 0, 0, 15⟩ :
        PlanningConfig).cOrigin ∧
    runPlanning (⟨LayoutMode.detailed, OriginMode.fromColumn, 0, 0, 0, 0, 0, 0, 0, 15⟩ :
        PlanningConfig) 15 [] 30 = Except.ok [] ∧
    detailedOrigin (⟨LayoutMode.detailed, OriginMode.fromColumn, 0, 0, 0, 0, 0, 0, 0, 15⟩ :
        PlanningConfig) 15 ("BKK") ("x") = "Unknown" :=
  ⟨rfl, by decide, rfl, rfl⟩

/-- C7 amended: the bounds validation run before any packing covers, in
Detailed mode, the nine fixed indices plus the destination column, and
in Simple mode the six data columns plus (when column-derived) the
origin column; a validation error stops the request before packing. But
in Detailed mode the origin column index is not validated: when it is
out of bounds the origin silently becomes `"Unknown"`. -/
theorem claim_C7_amended :
    (∀ (cfg : PlanningConfig) (ncols : Nat), cfg.layout = LayoutMode.detailed →
      (checkConfig cfg ncols = Except.ok () ↔ ∀ i ∈ reqIndices cfg, i < ncols)) ∧
    (∀ (cfg : PlanningConfig) (ncols : Nat), cfg.layout = LayoutMode.simpleList →
      (checkConfig cfg ncols = Except.ok () ↔ ∀ i ∈ targetCols cfg, i < ncols)) ∧
    (∀ (cfg : PlanningConfig) (ncols : Nat) (demand : List DemandRow) (cap : Int) (e : String),
      checkConfig cfg ncols = Except.error e →
      runPlanning cfg ncols demand cap = Except.error e) ∧
    (∀ (cfg : PlanningConfig) (ncols : Nat) (colVal fixedVal : String),
      cfg.originMode = OriginMode.fromColumn → ncols ≤ cfg.cOrigin →
      detailedOrigin cfg ncols colVal fixedVal = "Unknown") := by
  refine ⟨?_, ?_, ?_, ?_⟩
  · intro cfg ncols hl
    rcases cfg with ⟨lay, om, dci, cc, cd, cf, ct, ch, cq, co⟩
    cases hl
    simp only [checkConfig]
    by_cases hmax : ncols ≤ (reqIndices ⟨LayoutMode.detailed, om, dci, cc, cd, cf, ct, ch, cq, co⟩).foldl Nat.max 0
    · rw [if_pos hmax]
      constructor
      · intro h
        simp at h
      · intro hall
        have h1 : (1 : Nat) ∈ reqIndices ⟨LayoutMode.detailed, om, dci, cc, cd, cf, ct, ch, cq, co⟩ := by
          simp [reqIndices]
        have h2 := hall 1 h1
        have h3 := (foldl_max_lt_iff _ 0 ncols).mpr ⟨by omega, hall⟩
        omega
    · rw [if_neg hmax]
      constructor
      · intro _
        exact ((foldl_max_lt_iff _ 0 ncols).mp (by omega)).2
      · intro _
        rfl
  · intro cfg ncols hl
    rcases cfg with ⟨lay, om, dci, cc, cd, cf, ct, ch, cq, co⟩
    cases hl
    simp only [checkConfig]
    by_cases hmax : ncols ≤ (targetCols ⟨LayoutMode.simpleList, om, dci, cc, cd, cf, ct, ch, cq, co⟩).foldl Nat.max 0
    · rw [if_pos hmax]
      constructor
      · intro h
        simp at h
      · intro hall
        have h1 : cc ∈ targetCols ⟨LayoutMode.simpleList, om, dci, cc, cd, cf, ct, ch, cq, co⟩ := by
          simp [targetCols]
        have h2 := hall cc h1
        have h3 := (foldl_max_lt_iff _ 0 ncols).mpr ⟨by omega, hall⟩
        omega
    · rw [if_neg hmax]
      constructor
      · intro _
        exact ((foldl_max_lt_iff _ 0 ncols).mp (by omega)).2
      · intro _
        rfl
  · intro cfg ncols demand cap e h
    simp only [runPlanning, h]
  · intro cfg ncols colVal fixedVal hom hle
    rcases cfg with ⟨lay, om, dci, cc, cd, cf, ct, ch, cq, co⟩
    cases hom
    have hle2 : ncols ≤ co := hle
    simp only [detailedOrigin]
    rw [if_neg (by omega)]

theorem claim_C7_amended_witness :
    checkConfig (⟨LayoutMode.detailed, OriginMode.fixValue, 16, 0, 0, 0, 0, 0, 0, 0⟩ :
        PlanningConfig) 17 = Except.ok () ↔
      ∀ i ∈ reqIndices (⟨LayoutMode.detailed, OriginMode.fixValue, 16, 0, 0, 0, 0, 0, 0, 0⟩ :
        PlanningConfig), i < 17 :=
  claim_C7_amended.1 _ 17 rfl
